import Mathlib

/-!
Verification of the d-agents workload orchestration engine.

This file gives a shallow embedding of the core of the repository:
the worker's provider registry and dispatch (internal/worker/worker.go,
second revision in the file, the one the spec describes), the SQLite
session store (the datastore file, AddSession/GetSession), the price-drop
analyzer (internal/agents/shopping_notification_agent.go) and the
argument-validation prefixes of the other agents.  External effects
(vendor API calls, client construction, the product table) are
parameters (oracles) of the embedded functions; everything else is
translated from the Go source.

Modelling conventions:
  * Go strings and []byte payloads are Lean `String`s.
  * float64 prices are `ℚ` (the analyzer only compares prices and
    formats them with two decimals; no float rounding is exercised by
    the claims, whose prices are exact).
  * `time.Time` sample dates are `ℕ`, with `0` playing the role of Go's
    zero `time.Time{}` (the sentinel the analyzer uses for "no previous
    period"); `Before` is `<`, `Equal` is `=`.
  * Go maps are association lists with last-write-wins `mapSet` /
    `mapGet`.  Iteration order of a Go map is unspecified, so functions
    that iterate over map keys take the key enumeration as a parameter.
  * `sort.Slice` (an unstable sort) is determinised as insertion sort
    over the same less-relation; every property proved below is
    independent of the order of date ties.
-/

/-- Association-list update, Go map assignment semantics (replace or append). -/
def mapSet {α β : Type} [DecidableEq α] : List (α × β) → α → β → List (α × β)
  | [], k, v => [(k, v)]
  | (k', v') :: rest, k, v =>
    if k = k' then (k, v) :: rest else (k', v') :: mapSet rest k v

/-- Association-list lookup, Go map read semantics. -/
def mapGet {α β : Type} [DecidableEq α] : List (α × β) → α → Option β
  | [], _ => none
  | (k', v') :: rest, k => if k = k' then some v' else mapGet rest k

/-- Modelled from the spec: the proto file defining `pb.WorkloadStatus_Status`
is not part of the source tree; the spec's session state machine lists the
statuses PENDING, RUNNING, COMPLETED, FAILED, with PENDING the initial
(zero) value. -/
inductive WStatus where
  | PENDING
  | RUNNING
  | COMPLETED
  | FAILED
deriving DecidableEq, Repr

/-- Proto enum `String()`: the name of the status value. -/
def statusString : WStatus → String
  | .PENDING => "PENDING"
  | .RUNNING => "RUNNING"
  | .COMPLETED => "COMPLETED"
  | .FAILED => "FAILED"

/-- Proto `WorkloadStatus_Status_value` name lookup. -/
def statusValue (s : String) : Option WStatus :=
  if s = "PENDING" then some .PENDING
  else if s = "RUNNING" then some .RUNNING
  else if s = "COMPLETED" then some .COMPLETED
  else if s = "FAILED" then some .FAILED
  else none

/-- Modelled from the spec: `pb.Workload` (the proto message is not in the
source tree; its fields are those the spec's data model lists and the Go
code reads: Id, Name, Description, AgentId, AgentType, Models, Payload,
Status, Timestamp, Config). -/
structure Workload where
  id : String
  name : String
  description : String
  agentId : String
  agentType : String
  models : List String
  payload : String
  status : WStatus
  timestamp : Int
  config : String
deriving DecidableEq, Repr

/-- Registry entry `models.Model` (internal/models/model.go). -/
structure GoModel where
  id : String
  provider : String
  apiKey : String
  modelID : String
  apiURL : String
  apiSpec : String
deriving DecidableEq, Repr

/-- A live vendor client handle.  The `gemini` constructor is what the
`genai.NewClient` branch of Init produces, the `openai` constructor what
the `openai.NewClient` branch produces (with the optional base URL). -/
inductive ClientHandle where
  | gemini (apiKey : String)
  | openai (apiKey : String) (baseURL : Option String)
deriving DecidableEq, Repr

/-- The wire-spec discriminator a client handle was constructed for:
each constructor is only ever created in the Init branch matching that
`apiSpec` value. -/
def clientSpec : ClientHandle → String
  | .gemini _ => "gemini"
  | .openai _ _ => "openai"

/-- The worker package's two global registry maps (worker.go: `clients`,
`modelInfo`). -/
structure RouterState where
  clients : List (String × ClientHandle)
  modelInfo : List (String × GoModel)
deriving DecidableEq, Repr

/-- One iteration of the loop body of worker.Init (worker.go, second
revision).  `geminiNew` is the outcome of `genai.NewClient` for a given
API key (construction of an openai client cannot fail in the source).
Order matches the source: the model is recorded in `modelInfo` first;
then, if a client for `model.Provider` already exists, the rest is
skipped; otherwise a client is built according to `model.APISpec`, with
construction failures and unrecognized spec values logged and skipped. -/
def initStep (geminiNew : String → Except String Unit) (st : RouterState) (model : GoModel) :
    RouterState :=
  let st1 : RouterState := { st with modelInfo := mapSet st.modelInfo model.id model }
  if (mapGet st1.clients model.provider).isSome then st1
  else
    match model.apiSpec with
    | "gemini" =>
      match geminiNew model.apiKey with
      | .error _ => st1
      | .ok _ =>
        { st1 with clients := mapSet st1.clients model.provider (ClientHandle.gemini model.apiKey) }
    | "openai" =>
      let c := ClientHandle.openai model.apiKey
        (if model.apiURL = "" then none else some model.apiURL)
      { st1 with clients := mapSet st1.clients model.provider c }
    | _ => st1

/-- The registry state worker.Init leaves behind: fresh empty maps, then
the loop over the model list. -/
def workerInit (geminiNew : String → Except String Unit) (models : List GoModel) : RouterState :=
  models.foldl (initStep geminiNew) ⟨[], []⟩

/-- worker.Init including its return value.  Every failure inside the
loop is logged and skipped (`continue`), and the single return statement
of the function returns nil. -/
def workerInitE (geminiNew : String → Except String Unit) (models : List GoModel) :
    Except String RouterState :=
  Except.ok (workerInit geminiNew models)

/-- Interleaving trace of a reinitialization: the sequence of registry
states visible to a concurrent reader while Init runs again starting
from `s0`.  Go's Init first reassigns `clients` to a fresh empty map,
then `modelInfo`, then runs the loop; each loop iteration is taken as
one atomic step (a coarse granularity — the race is visible even so). -/
def initStates (geminiNew : String → Except String Unit) (s0 : RouterState)
    (models : List GoModel) : List RouterState :=
  s0 :: { s0 with clients := [] } ::
    List.scanl (initStep geminiNew) { clients := [], modelInfo := [] } models

/-- The model/client resolution prefix of worker.ProcessWorkload: first
model id of the workload, `modelInfo` lookup, then `clients` lookup
under the model's Provider name. -/
def dispatchClient (st : RouterState) (workload : Workload) : Option (GoModel × ClientHandle) :=
  match workload.models with
  | [] => none
  | modelID :: _ =>
    match mapGet st.modelInfo modelID with
    | none => none
    | some model =>
      match mapGet st.clients model.provider with
      | none => none
      | some client => some (model, client)

/-- Go `strings.Join` restricted to a one-character separator (the
source only joins with "," and with a newline), at the character level. -/
def joinChars (sep : Char) : List (List Char) → List Char
  | [] => []
  | [x] => x
  | x :: y :: t => x ++ sep :: joinChars sep (y :: t)

/-- Go `strings.Split` with a one-character separator, at the character
level: the (always nonempty) list of chunks between separators. -/
def splitChars (sep : Char) : List Char → List (List Char)
  | [] => [[]]
  | c :: rest =>
    match splitChars sep rest with
    | [] => []
    | g :: gs => if c = sep then [] :: g :: gs else (c :: g) :: gs

/-- Go `strings.Join(elems, sep)` for a one-character separator. -/
def stringsJoin (elems : List String) (sep : Char) : String :=
  ⟨joinChars sep (elems.map String.data)⟩

/-- Go `strings.Split(s, sep)` for a one-character separator. -/
def stringsSplit (s : String) (sep : Char) : List String :=
  (splitChars sep s.data).map String.mk

/-- One row of the `sessions` table (datastore source: id TEXT PRIMARY
KEY, name, agent_id, agent_type, models TEXT, payload BLOB, status TEXT,
timestamp DATETIME DEFAULT CURRENT_TIMESTAMP). -/
structure SessionRow where
  rowId : String
  rowName : String
  rowAgentId : String
  rowAgentType : String
  rowModels : String
  rowPayload : String
  rowStatus : Option String
  rowTimestamp : Int
deriving DecidableEq, Repr

/-- The sessions table, keyed by primary key. -/
abbrev SessionDb := List (String × SessionRow)

/-- SQLiteDatastore.AddSession: joins Models with ",", INSERT OR REPLACE
by primary key; the timestamp column is not written, so the row gets the
insert-time default `now`; a non-null status name is always stored. -/
def AddSession (db : SessionDb) (session : Workload) (now : Int) : SessionDb :=
  mapSet db session.id
    { rowId := session.id
      rowName := session.name
      rowAgentId := session.agentId
      rowAgentType := session.agentType
      rowModels := stringsJoin session.models ','
      rowPayload := session.payload
      rowStatus := some (statusString session.status)
      rowTimestamp := now }

/-- SQLiteDatastore.GetSession: scans the row (missing id is the
`sql.ErrNoRows` scan error), splits the models column on ",", and parses
the status name when the column is non-null and recognized, leaving the
zero value otherwise.  Description and Config are not columns of the
table and come back as zero values. -/
def GetSession (db : SessionDb) (id : String) : Except String Workload :=
  match mapGet db id with
  | none => .error "sql: no rows in result set"
  | some row =>
    .ok
      { id := row.rowId
        name := row.rowName
        description := ""
        agentId := row.rowAgentId
        agentType := row.rowAgentType
        models := stringsSplit row.rowModels ','
        payload := row.rowPayload
        status :=
          match row.rowStatus with
          | some s =>
            match statusValue s with
            | some st => st
            | none => WStatus.PENDING
          | none => WStatus.PENDING
        timestamp := row.rowTimestamp
        config := "" }

/-- worker.appendPayloadAndSave: re-reads the session from the store,
appends the model response to the stored payload with the "---"
delimiter, and writes the session back (load and save failures are
logged and ignored). -/
def appendPayloadAndSave (db : SessionDb) (workloadId : String) (responseText : String)
    (now : Int) : SessionDb :=
  match GetSession db workloadId with
  | .error _ => db
  | .ok session =>
    AddSession db { session with payload := session.payload ++ "\n\n---\n\n" ++ responseText } now

/-- worker.ProcessWorkload (worker.go, second revision).  `api` is the
synchronous vendor content-generation call, given the dispatched client
handle, the model's vendor-side identifier and the workload payload; the
gemini and openai branches of the source's type switch differ only in
how they drive their SDK, and both end in appendPayloadAndSave on
success and in log-and-return on error.  Every early-exit branch of the
source (no models, unknown model id, missing provider client, vendor
error) returns with the store untouched; no status is ever written. -/
def ProcessWorkload (api : ClientHandle → String → String → Except String String)
    (st : RouterState) (db : SessionDb) (workload : Workload) (now : Int) : SessionDb :=
  match workload.models with
  | [] => db
  | modelID :: _ =>
    match mapGet st.modelInfo modelID with
    | none => db
    | some model =>
      match mapGet st.clients model.provider with
      | none => db
      | some client =>
        match api client model.modelID workload.payload with
        | .error _ => db
        | .ok responseText => appendPayloadAndSave db workload.id responseText now

/-- A row of the shopping `products` table (internal/database/shopping_db.go):
name, price, sampling date, source, and a nullable URL. -/
structure GoProduct where
  name : String
  price : ℚ
  date : ℕ
  source : String
  url : Option String
deriving DecidableEq, Repr

instance : IsTrans GoProduct (fun a b => a.date ≤ b.date) :=
  ⟨fun _ _ _ h h' => Nat.le_trans h h'⟩

instance : IsTotal GoProduct (fun a b => a.date ≤ b.date) :=
  ⟨fun a b => Nat.le_total a.date b.date⟩

/-- The `sort.Slice(productList, ...Date.Before...)` call, determinised
as insertion sort by date (the Go sort is unstable; all downstream facts
proved here are independent of the order of date ties). -/
def sortByDate (l : List GoProduct) : List GoProduct :=
  List.insertionSort (fun a b => a.date ≤ b.date) l

/-- The backward scan of the analyzer: walking the sorted slice from its
last index down, the date of the first sample strictly before
`mostRecent`, or Go's zero time (0) when none exists.  The argument is
the reversed sorted slice, so the scan is a left-to-right walk. -/
def firstEarlierDate (mostRecent : ℕ) : List GoProduct → ℕ
  | [] => 0
  | p :: rest => if p.date < mostRecent then p.date else firstEarlierDate mostRecent rest

/-- Two-decimal rendering of a whole number of cents ("700" ↦ "7.00"). -/
def fmtCents (cents : ℕ) : String :=
  toString (cents / 100) ++ "." ++
    (if cents % 100 < 10 then "0" ++ toString (cents % 100) else toString (cents % 100))

/-- Go's `%.2f` format of a price: the price rounded to cents.  (Go
rounds the underlying binary float half-to-even; on the exact rational
model the tie can only occur at exact half-cents, where we round up —
no claim exercises a tie.) -/
def fmtF2 (q : ℚ) : String :=
  if q < 0 then "-" ++ fmtCents ((200 * (-q).num.toNat + (-q).den) / (2 * (-q).den))
  else fmtCents ((200 * q.num.toNat + q.den) / (2 * q.den))

/-- The notification line of the analyzer:
`fmt.Sprintf("Price drop for %s: $%.2f (was $%.2f). URL: %s", ...)`. -/
def priceDropMsg (name : String) (low prev : ℚ) (url : String) : String :=
  "Price drop for " ++ name ++ ": $" ++ fmtF2 low ++ " (was $" ++ fmtF2 prev ++ "). URL: " ++ url

/-- The per-product-group body of ShoppingNotificationAgent.DoWork: the
notification produced for one product name's sample group, if any.
Mirrors the source line by line: sort by date; skip groups of fewer than
two samples; take the last sample's date as the most recent period;
collect the samples of that date and the cheapest of them; scan backward
for the nearest strictly earlier date (zero time when none); skip when
none; take the minimum price over that previous date; emit the line only
when the recent minimum is strictly below the previous minimum, with the
winning sample's URL ("N/A" when the URL column is null). -/
def groupNotification (name : String) (productList : List GoProduct) : Option String :=
  let sorted := sortByDate productList
  if sorted.length < 2 then none
  else
    match sorted.getLast? with
    | none => none
    | some lastP =>
      let mostRecentPeriod := lastP.date
      match sorted.filter (fun p => p.date = mostRecentPeriod) with
      | [] => none
      | r0 :: rrest =>
        let lowestRecentProduct :=
          (r0 :: rrest).foldl (fun best p => if p.price < best.price then p else best) r0
        let lowestRecentPrice := lowestRecentProduct.price
        let previousPeriod := firstEarlierDate mostRecentPeriod sorted.reverse
        if previousPeriod = 0 then none
        else
          match (sorted.filter (fun p => p.date = previousPeriod)).map (fun p => p.price) with
          | [] => none
          | q0 :: qrest =>
            let lowestPreviousPrice :=
              (q0 :: qrest).foldl (fun acc price => if price < acc then price else acc) q0
            if lowestRecentPrice < lowestPreviousPrice then
              some (priceDropMsg name lowestRecentPrice lowestPreviousPrice
                (lowestRecentProduct.url.getD "N/A"))
            else none

/-- Capability interface `models.GenAIClient`, as an oracle of outcomes. -/
structure GenAIOracle where
  generateContent : Workload → String → Except String String
  generateContentWithSystemPrompt : Workload → String → String → Except String String

/-- Outcome of an agent DoWork call: the mutated workload and nil error,
an error return, or a runtime nil-pointer dereference panic. -/
inductive DoWorkResult where
  | ok (w : Workload)
  | err (msg : String)
  | nilDeref
deriving DecidableEq, Repr

/-- ChatAgent.DoWork (full translation): nil checks, one GenerateContent
call on the payload, and on success the payload is replaced by the old
payload with the response appended after a "---" delimiter. -/
def chatAgentDoWork (workload : Option Workload) (genAIClient : Option GenAIOracle) :
    DoWorkResult :=
  match workload with
  | none => .err "workload is nil"
  | some w =>
    match genAIClient with
    | none => .err "genAIClient is nil"
    | some client =>
      match client.generateContent w w.payload with
      | .error e => .err ("error generating content: " ++ e)
      | .ok responseText => .ok { w with payload := w.payload ++ "\n\n---\n\n" ++ responseText }

/-- Result of the argument-validation prefix of a DoWork implementation:
either an immediate error return or control proceeding into the body. -/
inductive AgentStep where
  | err (msg : String)
  | proceeds
deriving DecidableEq, Repr

/-- The validation prefix of ShoppingAgent.DoWork
(internal/agents/shopping_agent.go): nil workload, then nil client, then
the body (browser fetch, LLM call, JSON insert — external effects beyond
the validated prefix the claims are about). -/
def shoppingAgentValidate (workload : Option Workload) (genAIClient : Option GenAIOracle) :
    AgentStep :=
  match workload with
  | none => .err "workload is nil"
  | some _ =>
    match genAIClient with
    | none => .err "genAIClient is nil"
    | some _ => .proceeds

/-- The validation prefix of CompanyRelationshipAgent.DoWork: nil
workload, nil client, then empty session name, then the body. -/
def companyRelationshipValidate (workload : Option Workload) (genAIClient : Option GenAIOracle) :
    AgentStep :=
  match workload with
  | none => .err "workload is nil"
  | some w =>
    match genAIClient with
    | none => .err "genAIClient is nil"
    | some _ =>
      if w.name = "" then
        .err "workload name (session name) is empty, which is required as a primary company node"
      else .proceeds

/-- ShoppingNotificationAgent.DoWork.  `productsRes` is the outcome of
Db.GetAllProducts, `names` the (unspecified-order) key enumeration of
the group-by-name map built from the product rows.  The source performs
no nil checks: the workload pointer is first dereferenced after the
whole analysis, when the payload is assigned, so a nil workload is a
runtime panic there, and the GenAI client is never used at all.  The
optional e-mail delivery only logs its failures and does not change the
workload, so it is not part of the returned state. -/
def shoppingNotificationDoWork (workload : Option Workload) (genAIClient : Option GenAIOracle)
    (productsRes : Except String (List GoProduct)) (names : List String) : DoWorkResult :=
  match productsRes with
  | .error e => .err ("failed to get products: " ++ e)
  | .ok products =>
    let notifications :=
      names.filterMap (fun n => groupNotification n (products.filter (fun p => p.name = n)))
    match workload with
    | none => .nilDeref
    | some w =>
      if notifications.length > 0 then
        .ok { w with payload := "Nieve AI alerts:\n" ++ stringsJoin notifications '\n' }
      else
        .ok { w with payload := "No price drops detected." }

/-- Minimum of a list of prices, in the accumulator style the analyzer
uses (first element, then fold); `none` for an empty list. -/
def listMin : List ℚ → Option ℚ
  | [] => none
  | q :: qs => some (qs.foldl min q)

/-- Dates occurring in a sample group. -/
def datesOf (g : List GoProduct) : List ℕ :=
  g.map (fun p => p.date)

/-- Spec-side reading (stated from the specification's words, for
comparison with the code): `d` is the most recent distinct date of the
group. -/
@[reducible]
def specIsMostRecentDate (g : List GoProduct) (d : ℕ) : Prop :=
  d ∈ datesOf g ∧ ∀ e ∈ datesOf g, e ≤ d

/-- Spec-side reading: `d` is the nearest distinct date strictly earlier
than the most recent date `D`. -/
@[reducible]
def specIsPrevDate (g : List GoProduct) (D d : ℕ) : Prop :=
  d ∈ datesOf g ∧ d < D ∧ ∀ e ∈ datesOf g, e < D → e ≤ d

/-- Spec-side reading: the minimum price over all samples of the group
sharing date `d`. -/
def specMinPriceAt (g : List GoProduct) (d : ℕ) : Option ℚ :=
  listMin ((g.filter (fun p => p.date = d)).map (fun p => p.price))

/-! Concrete fixtures used by the closed theorems below. -/

/-- A client-construction oracle that always succeeds. -/
def gOK : String → Except String Unit := fun _ => .ok ()

/-- A registered gemini-spec model. -/
def mGem : GoModel := ⟨"m1", "google", "key", "gemini-pro", "", "gemini"⟩

/-- Registry after initializing with `mGem` alone. -/
def stA : RouterState := workerInit gOK [mGem]

/-- A RUNNING workload naming model "m1". -/
def w1 : Workload := ⟨"w1", "sess", "", "ag", "chat", ["m1"], "hello", WStatus.RUNNING, 0, ""⟩

/-- Session store holding `w1`, persisted at enqueue time as the submitter does. -/
def db0 : SessionDb := AddSession [] w1 5

/-- An openai-spec model under provider name "p". -/
def mOaiP : GoModel := ⟨"a", "p", "k1", "gpt", "", "openai"⟩

/-- A gemini-spec model under the same provider name "p". -/
def mGemP : GoModel := ⟨"b", "p", "k2", "gem", "", "gemini"⟩

/-- Registry after initializing with both same-provider models. -/
def stB : RouterState := workerInit gOK [mOaiP, mGemP]

/-- A workload naming the gemini-spec model "b". -/
def wB : Workload := ⟨"w2", "", "", "", "", ["b"], "", WStatus.RUNNING, 0, ""⟩

/-- A plain workload fixture. -/
def w0 : Workload := ⟨"w0", "n", "", "", "", [], "", WStatus.PENDING, 0, ""⟩

/-- A workload with a two-element model list. -/
def wm : Workload := ⟨"wx", "n", "", "", "", ["a", "b"], "", WStatus.PENDING, 0, ""⟩

/-- A workload with an empty model list. -/
def we : Workload := ⟨"wy", "n", "", "", "", [], "", WStatus.PENDING, 0, ""⟩

/-- Spec example: Widget at 10.0 and 8.0 on day 1, 9.0 on day 2. -/
def widgetFlat : List GoProduct :=
  [⟨"Widget", 10, 1, "s", none⟩, ⟨"Widget", 8, 1, "s", none⟩, ⟨"Widget", 9, 2, "s", none⟩]

/-- Spec example: Widget at 10.0 on day 1 and 7.0 on day 2. -/
def widgetDrop : List GoProduct :=
  [⟨"Widget", 10, 1, "s", none⟩, ⟨"Widget", 7, 2, "s", none⟩]

/-! ## Generic lemmas about the embedded primitives -/

theorem mapGet_mapSet_self {α β : Type} [DecidableEq α] (l : List (α × β)) (k : α) (v : β) :
    mapGet (mapSet l k v) k = some v := by
  induction l with
  | nil => simp [mapSet, mapGet]
  | cons hd tl ih =>
    obtain ⟨k', v'⟩ := hd
    by_cases h : k = k'
    · simp [mapSet, mapGet, h]
    · simp [mapSet, mapGet, h, ih]

theorem mapGet_mapSet_ne {α β : Type} [DecidableEq α] (l : List (α × β)) (k k' : α) (v : β)
    (h : k' ≠ k) : mapGet (mapSet l k v) k' = mapGet l k' := by
  induction l with
  | nil => simp [mapSet, mapGet, h]
  | cons hd tl ih =>
    obtain ⟨k'', v''⟩ := hd
    by_cases hk : k = k''
    · subst hk
      simp [mapSet, mapGet, h]
    · by_cases hk' : k' = k''
      · simp [mapSet, mapGet, hk, hk']
      · simp [mapSet, mapGet, hk, hk', ih]

theorem statusValue_statusString (st : WStatus) : statusValue (statusString st) = some st := by
  cases st <;> rfl

theorem splitChars_ne_nil (sep : Char) (cs : List Char) : splitChars sep cs ≠ [] := by
  induction cs with
  | nil => simp [splitChars]
  | cons c rest ih =>
    simp only [splitChars]
    cases h : splitChars sep rest with
    | nil => exact absurd h ih
    | cons g gs => by_cases hc : c = sep <;> simp [hc]

theorem splitChars_no_sep (sep : Char) (cs : List Char) (h : sep ∉ cs) :
    splitChars sep cs = [cs] := by
  induction cs with
  | nil => rfl
  | cons c rest ih =>
    have hc : c ≠ sep := fun he => h (he ▸ List.mem_cons_self c rest)
    have hrest : sep ∉ rest := fun hm => h (List.mem_cons_of_mem _ hm)
    simp only [splitChars, ih hrest]
    simp [hc]

theorem splitChars_append (sep : Char) (x cs : List Char) (hx : sep ∉ x) :
    splitChars sep (x ++ sep :: cs) = x :: splitChars sep cs := by
  induction x with
  | nil =>
    simp only [List.nil_append, splitChars]
    cases h : splitChars sep cs with
    | nil => exact absurd h (splitChars_ne_nil sep cs)
    | cons g gs => simp
  | cons c x' ih =>
    have hc : c ≠ sep := fun he => hx (he ▸ List.mem_cons_self c x')
    have hx' : sep ∉ x' := fun hm => hx (List.mem_cons_of_mem _ hm)
    simp only [List.cons_append, splitChars, List.append_eq]
    rw [ih hx']
    simp [hc]

theorem splitChars_joinChars (sep : Char) (l : List (List Char)) (hne : l ≠ [])
    (hs : ∀ x ∈ l, sep ∉ x) :
    splitChars sep (joinChars sep l) = l := by
  induction l with
  | nil => exact absurd rfl hne
  | cons x t ih =>
    cases t with
    | nil => exact splitChars_no_sep sep x (hs x (by simp))
    | cons y t' =>
      have hj : joinChars sep (x :: y :: t') = x ++ sep :: joinChars sep (y :: t') := rfl
      rw [hj, splitChars_append sep x _ (hs x (by simp))]
      rw [ih (by simp) (fun z hz => hs z (List.mem_cons_of_mem _ hz))]

theorem stringsSplit_stringsJoin (sep : Char) (l : List String) (hne : l ≠ [])
    (hs : ∀ s ∈ l, sep ∉ s.data) :
    stringsSplit (stringsJoin l sep) sep = l := by
  unfold stringsSplit stringsJoin
  have hdata : (String.mk (joinChars sep (l.map String.data))).data
      = joinChars sep (l.map String.data) := rfl
  rw [hdata, splitChars_joinChars sep (l.map String.data)
    (by simpa using hne)
    (by intro x hx; obtain ⟨s, hsl, rfl⟩ := List.mem_map.mp hx; exact hs s hsl)]
  rw [List.map_map]
  have hid : (String.mk ∘ String.data) = fun s : String => s := funext fun _ => rfl
  rw [hid, List.map_id']

theorem if_lt_eq_min (a b : ℚ) : (if b < a then b else a) = min a b := by
  rcases le_or_lt a b with h | h
  · rw [if_neg (not_lt.mpr h), min_eq_left h]
  · rw [if_pos h, min_eq_right (le_of_lt h)]

theorem foldl_if_min (qs : List ℚ) (q0 : ℚ) :
    qs.foldl (fun acc price => if price < acc then price else acc) q0 = qs.foldl min q0 := by
  induction qs generalizing q0 with
  | nil => rfl
  | cons q qs ih =>
    simp only [List.foldl_cons]
    rw [if_lt_eq_min, ih]

theorem foldl_best_price (t : List GoProduct) (b : GoProduct) :
    (t.foldl (fun best p => if p.price < best.price then p else best) b).price =
      (t.map (fun p => p.price)).foldl min b.price := by
  induction t generalizing b with
  | nil => rfl
  | cons p t ih =>
    simp only [List.foldl_cons, List.map_cons]
    rw [ih]
    have hb : (if p.price < b.price then p else b).price = min b.price p.price := by
      by_cases h : p.price < b.price
      · rw [if_pos h, min_eq_right (le_of_lt h)]
      · rw [if_neg h, min_eq_left (not_lt.mp h)]
    rw [hb]

theorem foldl_min_le (qs : List ℚ) (q0 : ℚ) :
    qs.foldl min q0 ≤ q0 ∧ ∀ x ∈ qs, qs.foldl min q0 ≤ x := by
  induction qs generalizing q0 with
  | nil => exact ⟨le_refl _, by simp⟩
  | cons q qs ih =>
    have h := ih (min q0 q)
    refine ⟨h.1.trans (min_le_left _ _), ?_⟩
    intro x hx
    rcases List.mem_cons.mp hx with rfl | hx'
    · exact h.1.trans (min_le_right _ _)
    · exact h.2 x hx'

theorem foldl_min_mem (qs : List ℚ) (q0 : ℚ) :
    qs.foldl min q0 = q0 ∨ qs.foldl min q0 ∈ qs := by
  induction qs generalizing q0 with
  | nil => exact Or.inl rfl
  | cons q qs ih =>
    simp only [List.foldl_cons]
    rcases ih (min q0 q) with h | h
    · rcases min_choice q0 q with hm | hm
      · exact Or.inl (h.trans hm)
      · refine Or.inr ?_
        rw [h, hm]
        exact List.mem_cons_self q qs
    · exact Or.inr (List.mem_cons_of_mem _ h)

theorem listMin_spec (l : List ℚ) (m : ℚ) (h : listMin l = some m) :
    m ∈ l ∧ ∀ x ∈ l, m ≤ x := by
  cases l with
  | nil => exact absurd h (by simp [listMin])
  | cons q qs =>
    have hm : qs.foldl min q = m := Option.some.inj h
    constructor
    · rw [← hm]
      rcases foldl_min_mem qs q with h' | h'
      · rw [h']
        exact List.mem_cons_self q qs
      · exact List.mem_cons_of_mem _ h'
    · intro x hx
      rw [← hm]
      rcases List.mem_cons.mp hx with hx' | hx'
      · rw [hx']
        exact (foldl_min_le qs q).1
      · exact (foldl_min_le qs q).2 x hx'

theorem listMin_perm (l1 l2 : List ℚ) (h : List.Perm l1 l2) : listMin l1 = listMin l2 := by
  cases l1 with
  | nil =>
    have : l2 = [] := h.symm.eq_nil
    rw [this]
  | cons q qs =>
    cases l2 with
    | nil => exact absurd h.eq_nil (by simp)
    | cons r rs =>
      have h1 : listMin (q :: qs) = some (qs.foldl min q) := rfl
      have h2 : listMin (r :: rs) = some (rs.foldl min r) := rfl
      have s1 := listMin_spec _ _ h1
      have s2 := listMin_spec _ _ h2
      have hle1 : qs.foldl min q ≤ rs.foldl min r :=
        s1.2 _ (h.mem_iff.mpr s2.1)
      have hle2 : rs.foldl min r ≤ qs.foldl min q :=
        s2.2 _ (h.mem_iff.mp s1.1)
      rw [h1, h2, le_antisymm hle1 hle2]

theorem firstEarlierDate_not_lt (D : ℕ) (t : List GoProduct)
    (h : ∀ p ∈ t, ¬ p.date < D) : firstEarlierDate D t = 0 := by
  induction t with
  | nil => rfl
  | cons p rest ih =>
    simp only [firstEarlierDate]
    rw [if_neg (h p (List.mem_cons_self p rest))]
    exact ih fun q hq => h q (List.mem_cons_of_mem _ hq)

theorem firstEarlierDate_zero (D : ℕ) (t : List GoProduct) (hnz : ∀ p ∈ t, p.date ≠ 0)
    (h : firstEarlierDate D t = 0) : ∀ p ∈ t, ¬ p.date < D := by
  induction t with
  | nil => simp
  | cons q rest ih =>
    intro p hp
    simp only [firstEarlierDate] at h
    by_cases hq : q.date < D
    · rw [if_pos hq] at h
      exact absurd h (hnz q (List.mem_cons_self q rest))
    · rw [if_neg hq] at h
      rcases List.mem_cons.mp hp with rfl | hp'
      · exact hq
      · exact ih (fun r hr => hnz r (List.mem_cons_of_mem _ hr)) h p hp'

theorem firstEarlierDate_found (D : ℕ) (t : List GoProduct) (d : ℕ)
    (h : firstEarlierDate D t = d) (hd : d ≠ 0) :
    ∃ p ∈ t, p.date = d ∧ d < D := by
  induction t with
  | nil =>
    simp only [firstEarlierDate] at h
    exact absurd h.symm hd
  | cons q rest ih =>
    simp only [firstEarlierDate] at h
    by_cases hq : q.date < D
    · rw [if_pos hq] at h
      exact ⟨q, List.mem_cons_self q rest, h, h ▸ hq⟩
    · rw [if_neg hq] at h
      obtain ⟨p, hp, hpd, hlt⟩ := ih h
      exact ⟨p, List.mem_cons_of_mem _ hp, hpd, hlt⟩

theorem firstEarlierDate_max (D : ℕ) (t : List GoProduct)
    (hsort : t.Pairwise (fun a b => b.date ≤ a.date)) (d : ℕ)
    (h : firstEarlierDate D t = d) :
    ∀ p ∈ t, p.date < D → p.date ≤ d := by
  induction t with
  | nil => simp
  | cons q rest ih =>
    simp only [firstEarlierDate] at h
    obtain ⟨hhead, htail⟩ := List.pairwise_cons.mp hsort
    by_cases hq : q.date < D
    · rw [if_pos hq] at h
      intro p hp _
      rcases List.mem_cons.mp hp with rfl | hp'
      · exact le_of_eq h
      · exact h ▸ hhead p hp'
    · rw [if_neg hq] at h
      intro p hp hpD
      rcases List.mem_cons.mp hp with rfl | hp'
      · exact absurd hpD hq
      · exact ih htail h p hp' hpD

theorem date_le_getLast (s : List GoProduct)
    (hs : List.Sorted (fun a b => a.date ≤ b.date) s) (L : GoProduct)
    (hL : s.getLast? = some L) : ∀ x ∈ s, x.date ≤ L.date := by
  induction s with
  | nil => simp
  | cons a t ih =>
    cases t with
    | nil =>
      intro x hx
      have hLa : L = a := by
        simpa using hL.symm
      rcases List.mem_cons.mp hx with rfl | h'
      · exact le_of_eq (by rw [hLa])
      · exact absurd h' (by simp)
    | cons b t' =>
      have hL' : (b :: t').getLast? = some L := by
        rwa [List.getLast?_cons_cons] at hL
      intro x hx
      rcases List.mem_cons.mp hx with rfl | h'
      · exact List.rel_of_sorted_cons hs L (List.mem_of_getLast?_eq_some hL')
      · exact ih hs.of_cons hL' x h'

theorem sortByDate_perm (l : List GoProduct) : List.Perm (sortByDate l) l :=
  List.perm_insertionSort _ l

theorem sortByDate_sorted (l : List GoProduct) :
    List.Sorted (fun a b => a.date ≤ b.date) (sortByDate l) :=
  List.sorted_insertionSort _ l

/-! ## Lemmas about the registry and the session store -/

theorem initStep_clients (geminiNew : String → Except String Unit) (st : RouterState)
    (m : GoModel) (p : String) (c : ClientHandle)
    (h : mapGet (initStep geminiNew st m).clients p = some c) :
    mapGet st.clients p = some c ∨ (m.provider = p ∧ clientSpec c = m.apiSpec) := by
  simp only [initStep] at h
  split at h
  · exact Or.inl h
  · split at h
    · rename_i heq
      split at h
      · exact Or.inl h
      · by_cases hp : p = m.provider
        · rw [hp, mapGet_mapSet_self] at h
          have hc := Option.some.inj h
          refine Or.inr ⟨hp.symm, ?_⟩
          rw [← hc, heq]
          rfl
        · rw [mapGet_mapSet_ne _ _ _ _ hp] at h
          exact Or.inl h
    · rename_i heq
      by_cases hp : p = m.provider
      · rw [hp, mapGet_mapSet_self] at h
        have hc := Option.some.inj h
        refine Or.inr ⟨hp.symm, ?_⟩
        rw [← hc, heq]
        rfl
      · rw [mapGet_mapSet_ne _ _ _ _ hp] at h
        exact Or.inl h
    · exact Or.inl h

theorem workerInit_clients (geminiNew : String → Except String Unit) (models : List GoModel) :
    ∀ (st : RouterState) (p : String) (c : ClientHandle),
      mapGet (models.foldl (initStep geminiNew) st).clients p = some c →
      mapGet st.clients p = some c ∨ ∃ m ∈ models, m.provider = p ∧ clientSpec c = m.apiSpec := by
  induction models with
  | nil => exact fun st p c h => Or.inl h
  | cons m ms ih =>
    intro st p c h
    simp only [List.foldl_cons] at h
    rcases ih _ p c h with h' | ⟨m', hm', hp', hs'⟩
    · rcases initStep_clients geminiNew st m p c h' with h'' | ⟨hp, hs⟩
      · exact Or.inl h''
      · exact Or.inr ⟨m, List.mem_cons_self m ms, hp, hs⟩
    · exact Or.inr ⟨m', List.mem_cons_of_mem _ hm', hp', hs'⟩

theorem dispatchClient_clients (st : RouterState) (w : Workload) (m : GoModel) (c : ClientHandle)
    (h : dispatchClient st w = some (m, c)) :
    mapGet st.clients m.provider = some c := by
  unfold dispatchClient at h
  split at h
  · exact absurd h (by simp)
  · split at h
    · exact absurd h (by simp)
    · rename_i model heq
      split at h
      · exact absurd h (by simp)
      · rename_i client heq2
        have hpair := Option.some.inj h
        have h1 : model = m := congrArg Prod.fst hpair
        have h2 : client = c := congrArg Prod.snd hpair
        rw [← h1, ← h2]
        exact heq2

theorem getSession_AddSession (db : SessionDb) (w : Workload) (now : Int) :
    GetSession (AddSession db w now) w.id = .ok
      { id := w.id, name := w.name, description := "", agentId := w.agentId,
        agentType := w.agentType,
        models := stringsSplit (stringsJoin w.models ',') ',',
        payload := w.payload, status := w.status, timestamp := now, config := "" } := by
  unfold GetSession AddSession
  rw [mapGet_mapSet_self]
  simp [statusValue_statusString]

/-! ## Evaluation lemmas for the analyzer's per-group body -/

theorem groupNotification_eval_short (name : String) (g : List GoProduct)
    (hlen : (sortByDate g).length < 2) : groupNotification name g = none := by
  simp only [groupNotification]
  rw [if_pos hlen]

theorem groupNotification_eval_zero (name : String) (g : List GoProduct) (L : GoProduct)
    (hlen : ¬ (sortByDate g).length < 2)
    (hL : (sortByDate g).getLast? = some L)
    (hz : firstEarlierDate L.date (sortByDate g).reverse = 0) :
    groupNotification name g = none := by
  simp only [groupNotification]
  rw [if_neg hlen]
  simp only [hL]
  cases hrec : (sortByDate g).filter (fun p => p.date = L.date) with
  | nil => simp [hrec]
  | cons r0 rrest => simp [hrec, hz]

theorem groupNotification_eval_nonzero (name : String) (g : List GoProduct) (L r0 : GoProduct)
    (rrest : List GoProduct) (q0 : ℚ) (qrest : List ℚ)
    (hlen : ¬ (sortByDate g).length < 2)
    (hL : (sortByDate g).getLast? = some L)
    (hrec : (sortByDate g).filter (fun p => p.date = L.date) = r0 :: rrest)
    (hz : ¬ firstEarlierDate L.date (sortByDate g).reverse = 0)
    (hpf : ((sortByDate g).filter
        (fun p => p.date = firstEarlierDate L.date (sortByDate g).reverse)).map
        (fun p => p.price) = q0 :: qrest) :
    groupNotification name g =
      (if ((r0 :: rrest).foldl (fun best p => if p.price < best.price then p else best) r0).price
          < qrest.foldl min q0 then
        some (priceDropMsg name
          ((r0 :: rrest).foldl (fun best p => if p.price < best.price then p else best) r0).price
          (qrest.foldl min q0)
          (((r0 :: rrest).foldl (fun best p => if p.price < best.price then p else best) r0).url.getD
            "N/A"))
      else none) := by
  simp only [groupNotification]
  rw [if_neg hlen]
  simp only [hL]
  simp only [hrec]
  rw [if_neg hz]
  simp only [hpf]
  rw [foldl_if_min]
  simp only [List.foldl_cons, min_self]

theorem groupNotification_isSome_iff (name : String) (g : List GoProduct) (D : ℕ)
    (hnz : ∀ p ∈ g, p.date ≠ 0) (hD : specIsMostRecentDate g D) :
    (groupNotification name g).isSome = true ↔
      ∃ d rm pm, specIsPrevDate g D d ∧ specMinPriceAt g D = some rm ∧
        specMinPriceAt g d = some pm ∧ rm < pm := by
  obtain ⟨hDmem, hDmax⟩ := hD
  obtain ⟨pD, hpDg, hpDdate⟩ := List.mem_map.mp hDmem
  have hperm := sortByDate_perm g
  have hsort := sortByDate_sorted g
  by_cases hlen : (sortByDate g).length < 2
  · rw [groupNotification_eval_short name g hlen]
    simp only [Option.isSome_none, Bool.false_eq_true, false_iff]
    rintro ⟨d, rm, pm, ⟨hdmem, hdlt, -⟩, -, -, -⟩
    obtain ⟨q, hqg, hqdate⟩ := List.mem_map.mp hdmem
    have hg2 : g.length < 2 := by
      rw [← hperm.length_eq]
      exact hlen
    cases g with
    | nil => exact absurd hpDg (by simp)
    | cons x t =>
      cases t with
      | nil =>
        have hq : q = x := by simpa using hqg
        have hp : pD = x := by simpa using hpDg
        rw [hq] at hqdate
        rw [hp] at hpDdate
        rw [← hqdate, hpDdate] at hdlt
        exact lt_irrefl D hdlt
      | cons y t' =>
        simp only [List.length_cons] at hg2
        omega
  · have hsne : sortByDate g ≠ [] := by
      intro h
      rw [h] at hlen
      exact hlen (by simp)
    obtain ⟨L, hL⟩ := Option.isSome_iff_exists.mp (List.getLast?_isSome.mpr hsne)
    have hLmem : L ∈ sortByDate g := List.mem_of_getLast?_eq_some hL
    have hLle : ∀ x ∈ sortByDate g, x.date ≤ L.date := date_le_getLast _ hsort L hL
    have hLD : L.date = D := by
      apply le_antisymm
      · exact hDmax L.date (List.mem_map.mpr ⟨L, hperm.mem_iff.mp hLmem, rfl⟩)
      · rw [← hpDdate]
        exact hLle pD (hperm.mem_iff.mpr hpDg)
    have hrevsort : (sortByDate g).reverse.Pairwise (fun a b => b.date ≤ a.date) :=
      List.pairwise_reverse.mpr hsort
    have hnzrev : ∀ p ∈ (sortByDate g).reverse, p.date ≠ 0 := fun p hp =>
      hnz p (hperm.mem_iff.mp (List.mem_reverse.mp hp))
    by_cases hz : firstEarlierDate L.date (sortByDate g).reverse = 0
    · rw [groupNotification_eval_zero name g L hlen hL hz]
      simp only [Option.isSome_none, Bool.false_eq_true, false_iff]
      rintro ⟨d, rm, pm, ⟨hdmem, hdlt, -⟩, -, -, -⟩
      obtain ⟨q, hqg, hqdate⟩ := List.mem_map.mp hdmem
      have hqs : q ∈ (sortByDate g).reverse := List.mem_reverse.mpr (hperm.mem_iff.mpr hqg)
      have hnot := firstEarlierDate_zero L.date _ hnzrev hz q hqs
      rw [hqdate, hLD] at hnot
      exact hnot hdlt
    · have hLfilter : L ∈ (sortByDate g).filter (fun p => p.date = L.date) :=
        List.mem_filter.mpr ⟨hLmem, by simp⟩
      cases hrec : (sortByDate g).filter (fun p => p.date = L.date) with
      | nil =>
        rw [hrec] at hLfilter
        exact absurd hLfilter (by simp)
      | cons r0 rrest =>
        obtain ⟨pprev, hpprev_mem, hpprev_date, hprevlt⟩ :=
          firstEarlierDate_found L.date ((sortByDate g).reverse) _ rfl hz
        have hprevfilter : pprev ∈ (sortByDate g).filter
            (fun p => p.date = firstEarlierDate L.date (sortByDate g).reverse) :=
          List.mem_filter.mpr ⟨List.mem_reverse.mp hpprev_mem, by simp [hpprev_date]⟩
        cases hpf : ((sortByDate g).filter
            (fun p => p.date = firstEarlierDate L.date (sortByDate g).reverse)).map
            (fun p => p.price) with
        | nil =>
          rw [List.map_eq_nil_iff] at hpf
          rw [hpf] at hprevfilter
          exact absurd hprevfilter (by simp)
        | cons q0 qrest =>
          rw [groupNotification_eval_nonzero name g L r0 rrest q0 qrest hlen hL hrec hz hpf]
          have hRmin : specMinPriceAt g D = some
              (((r0 :: rrest).foldl
                (fun best p => if p.price < best.price then p else best) r0).price) := by
            unfold specMinPriceAt
            rw [← hLD]
            rw [← listMin_perm _ _ ((hperm.filter _).map _)]
            rw [hrec, foldl_best_price]
            simp only [List.map_cons, listMin, List.foldl_cons, min_self]
          have hPmin : specMinPriceAt g (firstEarlierDate L.date (sortByDate g).reverse) =
              some (qrest.foldl min q0) := by
            unfold specMinPriceAt
            rw [← listMin_perm _ _ ((hperm.filter _).map _)]
            rw [hpf]
            simp [listMin]
          have hfz := firstEarlierDate_max L.date ((sortByDate g).reverse) hrevsort _ rfl
          have hprev_spec : specIsPrevDate g D
              (firstEarlierDate L.date (sortByDate g).reverse) := by
            refine ⟨?_, ?_, ?_⟩
            · exact List.mem_map.mpr
                ⟨pprev, hperm.mem_iff.mp (List.mem_reverse.mp hpprev_mem), hpprev_date⟩
            · rw [← hLD]
              exact hprevlt
            · intro e hemem helt
              obtain ⟨q, hqg, hqdate⟩ := List.mem_map.mp hemem
              have hqrev : q ∈ (sortByDate g).reverse :=
                List.mem_reverse.mpr (hperm.mem_iff.mpr hqg)
              have hqle := hfz q hqrev (by rw [hqdate, hLD]; exact helt)
              rw [hqdate] at hqle
              exact hqle
          have huniq : ∀ d, specIsPrevDate g D d →
              d = firstEarlierDate L.date (sortByDate g).reverse := by
            rintro d ⟨hdm, hdlt, hdmax⟩
            exact le_antisymm (hprev_spec.2.2 d hdm hdlt)
              (hdmax _ hprev_spec.1 hprev_spec.2.1)
          by_cases hlt :
              ((r0 :: rrest).foldl
                (fun best p => if p.price < best.price then p else best) r0).price <
                qrest.foldl min q0
          · rw [if_pos hlt]
            simp only [Option.isSome_some, true_iff]
            exact ⟨_, _, _, hprev_spec, hRmin, hPmin, hlt⟩
          · rw [if_neg hlt]
            simp only [Option.isSome_none, Bool.false_eq_true, false_iff]
            rintro ⟨d, rm, pm, hd, hrm, hpm, hlt'⟩
            rw [huniq d hd] at hpm
            rw [hRmin] at hrm
            rw [hPmin] at hpm
            rw [← Option.some.inj hrm, ← Option.some.inj hpm] at hlt'
            exact hlt hlt'

/-! ## Claims -/

/-- C1: the claim says a successfully processed PENDING-enqueued workload
ends in status COMPLETED with the appended payload, and an agent error
ends in status FAILED with the payload unchanged.  The code never writes
a terminal status: on vendor success it persists the appended payload
with the stored status untouched (still RUNNING), and on vendor error it
returns without touching the store at all.  This theorem evaluates
ProcessWorkload at the failing input: a RUNNING workload whose vendor
call succeeds keeps status RUNNING (never COMPLETED), and one whose
vendor call fails leaves the store byte-for-byte unchanged (never
FAILED). -/
theorem c1_worker_never_sets_terminal_status :
    GetSession (ProcessWorkload (fun _ _ _ => .ok "world") stA db0 w1 7) "w1" =
      .ok ⟨"w1", "sess", "", "ag", "chat", ["m1"], "hello\n\n---\n\nworld",
        WStatus.RUNNING, 7, ""⟩ ∧
    ProcessWorkload (fun _ _ _ => .error "boom") stA db0 w1 7 = db0 :=
  ⟨rfl, by decide⟩

/-- C2: on an upstream (vendor API) failure the claim requires the worker
to still attempt to persist a FAILED status.  The code's error branch
logs and returns: the session store is left untouched and the workload
keeps the RUNNING status the submitter persisted at enqueue time; no
FAILED write is ever attempted. -/
theorem c2_upstream_failure_no_failed_write :
    ProcessWorkload (fun _ _ _ => .error "boom") stA db0 w1 7 = db0 ∧
    GetSession db0 "w1" =
      .ok ⟨"w1", "sess", "", "ag", "chat", ["m1"], "hello", WStatus.RUNNING, 5, ""⟩ :=
  ⟨by decide, rfl⟩

/-- C3, counterexample: with two registered models sharing the Provider
name "p" but with different wire-specs ("openai" for model "a", "gemini"
for model "b"), a workload naming model "b" is dispatched to the client
constructed for the "openai" spec — a client of a different wire-spec
than model b's — because the client map is keyed by the Provider display
name, not by apiSpec. -/
theorem c3_counterexample :
    dispatchClient stB wB = some (mGemP, ClientHandle.openai "k1" none) ∧
    clientSpec (ClientHandle.openai "k1" none) ≠ mGemP.apiSpec := by
  decide

/-- C3, amended: dispatch is keyed by the model's Provider display name;
the client found under that key was constructed for the wire-spec of
some registered model with the same Provider name.  Hence whenever every
registered model sharing the workload model's Provider name agrees on
the wire-spec, the dispatched client was constructed for the model's own
wire-spec (and the original claim fails exactly when same-provider
models carry different specs, as the counterexample shows). -/
theorem c3_dispatch_follows_provider_key (geminiNew : String → Except String Unit)
    (models : List GoModel) (w : Workload) (m : GoModel) (c : ClientHandle)
    (hdisp : dispatchClient (workerInit geminiNew models) w = some (m, c))
    (hsame : ∀ m' ∈ models, m'.provider = m.provider → m'.apiSpec = m.apiSpec) :
    clientSpec c = m.apiSpec := by
  have hcl := dispatchClient_clients _ w m c hdisp
  simp only [workerInit] at hcl
  rcases workerInit_clients geminiNew models ⟨[], []⟩ m.provider c hcl with
    h | ⟨m', hm', hp', hs'⟩
  · exact absurd h (by simp [mapGet])
  · rw [hs']
    exact hsame m' hm' hp'

/-- C3, witness: a single registered openai-spec model routes to a client
of its own wire-spec. -/
theorem c3_dispatch_follows_provider_key_witness :
    clientSpec (ClientHandle.openai "k1" none) = mOaiP.apiSpec :=
  c3_dispatch_follows_provider_key gOK [mOaiP]
    ⟨"w3", "", "", "", "", ["a"], "", WStatus.RUNNING, 0, ""⟩
    mOaiP (ClientHandle.openai "k1" none) (by decide) (by decide)

/-- C4, counterexample: for the two-sample drop example the claim quotes
the exact notification "Price drop for Widget: $7.00 (was $10.00)", but
the analyzer emits that text with the URL field appended (". URL: N/A"
when the winning sample has no URL), so the quoted notification is not
the one produced.  Additionally, with a sample dated exactly at Go's
zero time the analyzer treats the previous period as missing and emits
nothing, although a strictly-earlier distinct date exists and the recent
minimum (7) is strictly below the previous minimum (10). -/
theorem c4_counterexample :
    (groupNotification "Widget" widgetDrop =
        some "Price drop for Widget: $7.00 (was $10.00). URL: N/A" ∧
      groupNotification "Widget" widgetDrop ≠
        some "Price drop for Widget: $7.00 (was $10.00)") ∧
    (groupNotification "Widget"
        [⟨"Widget", 10, 0, "s", none⟩, ⟨"Widget", 7, 5, "s", none⟩] = none ∧
      specIsPrevDate [⟨"Widget", 10, 0, "s", none⟩, ⟨"Widget", 7, 5, "s", none⟩] 5 0 ∧
      specMinPriceAt [⟨"Widget", 10, 0, "s", none⟩, ⟨"Widget", 7, 5, "s", none⟩] 5 = some 7 ∧
      specMinPriceAt [⟨"Widget", 10, 0, "s", none⟩, ⟨"Widget", 7, 5, "s", none⟩] 0 = some 10) := by
  decide

/-- C4, amended: for every product group of samples with nonzero dates
(Go's zero time is the analyzer's no-previous-period sentinel), a
notification is emitted if and only if a nearest strictly-earlier
distinct date exists and the minimum price over the most recent distinct
date is strictly below the minimum price over that previous date; in
particular the flat Widget example emits nothing, and the drop example
emits the claimed line with the URL field appended. -/
theorem c4_price_drop_analysis :
    (∀ (name : String) (g : List GoProduct) (D : ℕ),
      (∀ p ∈ g, p.date ≠ 0) → specIsMostRecentDate g D →
      ((groupNotification name g).isSome = true ↔
        ∃ d rm pm, specIsPrevDate g D d ∧ specMinPriceAt g D = some rm ∧
          specMinPriceAt g d = some pm ∧ rm < pm)) ∧
    groupNotification "Widget" widgetFlat = none ∧
    groupNotification "Widget" widgetDrop =
      some "Price drop for Widget: $7.00 (was $10.00). URL: N/A" :=
  ⟨groupNotification_isSome_iff, by decide, by decide⟩

/-- C4, witness: the amended equivalence instantiated at the drop
example, with its hypotheses discharged by evaluation. -/
theorem c4_price_drop_analysis_witness :
    (groupNotification "Widget" widgetDrop).isSome = true ↔
      ∃ d rm pm, specIsPrevDate widgetDrop 2 d ∧ specMinPriceAt widgetDrop 2 = some rm ∧
        specMinPriceAt widgetDrop d = some pm ∧ rm < pm :=
  c4_price_drop_analysis.1 "Widget" widgetDrop 2 (by decide) (by decide)

/-- C5, counterexample: ShoppingNotificationAgent.DoWork performs no
argument validation: called with a nil GenAI client it completes
normally instead of returning an InvalidArgument error, and called with
a nil workload it runs the whole analysis and then dereferences the nil
pointer instead of returning an immediate error. -/
theorem c5_counterexample :
    shoppingNotificationDoWork (some w0) none (.ok []) [] =
      .ok { w0 with payload := "No price drops detected." } ∧
    shoppingNotificationDoWork none none (.ok []) [] = .nilDeref := by
  decide

/-- C5, amended: ChatAgent, ShoppingAgent and CompanyRelationshipAgent
each return an immediate error on a nil workload or a nil GenAI client,
but ShoppingNotificationAgent does not validate its arguments: its
client argument never influences the result, and a nil workload leads to
a nil-pointer dereference after the analysis instead of an immediate
error. -/
theorem c5_nil_validation :
    (∀ c, chatAgentDoWork none c = .err "workload is nil") ∧
    (∀ w, chatAgentDoWork (some w) none = .err "genAIClient is nil") ∧
    (∀ c, shoppingAgentValidate none c = .err "workload is nil") ∧
    (∀ w, shoppingAgentValidate (some w) none = .err "genAIClient is nil") ∧
    (∀ c, companyRelationshipValidate none c = .err "workload is nil") ∧
    (∀ w, companyRelationshipValidate (some w) none = .err "genAIClient is nil") ∧
    (∀ c products names, shoppingNotificationDoWork none c (.ok products) names = .nilDeref) ∧
    (∀ w c products names,
      shoppingNotificationDoWork (some w) c (.ok products) names =
        shoppingNotificationDoWork (some w) none (.ok products) names) :=
  ⟨fun _ => rfl, fun _ => rfl, fun _ => rfl, fun _ => rfl, fun _ => rfl, fun _ => rfl,
    fun _ _ _ => rfl, fun _ _ _ _ => rfl⟩

/-- C6, counterexample: with the registry initialized for model "m1", a
dispatch before reinitialization succeeds; the interleaving trace of a
reinitialization contains, right after the in-place reset of the clients
map, a state in which the same dispatch still resolves the model in the
old modelInfo map but finds no client — a partially updated registry
observable by an in-flight generate call — before the final state of the
trace serves the dispatch again. -/
theorem c6_counterexample :
    dispatchClient stA w1 = some (mGem, ClientHandle.gemini "key") ∧
    (initStates gOK stA [mGem])[1]? = some ⟨[], [("m1", mGem)]⟩ ∧
    dispatchClient ⟨[], [("m1", mGem)]⟩ w1 = none ∧
    (initStates gOK stA [mGem]).getLast? = some stA := by
  decide

/-- C6, amended: the provider registry is a pair of unsynchronized global
maps that Init clears and repopulates in place: for every starting state
and model list, the second state of the reinitialization trace has an
empty clients map under the old modelInfo, the third state is the
completely empty registry, and in the empty registry every dispatch
fails — so a generate call interleaved with a reinitialization can
observe a partially updated registry, and the claimed
pre-swap-snapshot isolation does not hold. -/
theorem c6_reinit_not_atomic (geminiNew : String → Except String Unit)
    (s0 : RouterState) (models : List GoModel) :
    (initStates geminiNew s0 models)[1]? = some { s0 with clients := [] } ∧
    (initStates geminiNew s0 models)[2]? = some ⟨[], []⟩ ∧
    ∀ w : Workload, dispatchClient ⟨[], []⟩ w = none := by
  refine ⟨?_, ?_, ?_⟩
  · simp [initStates]
  · cases models with
    | nil => simp [initStates, List.scanl]
    | cons m ms => simp [initStates, List.scanl]
  · intro w
    cases hw : w.models with
    | nil => simp [dispatchClient, hw]
    | cons a b => simp [dispatchClient, hw, mapGet]

/-- C7: a product group whose samples all share one sampling date yields
no notification, regardless of the number of samples. -/
theorem c7_single_date_no_notification (name : String) (g : List GoProduct)
    (h : ∀ p ∈ g, ∀ q ∈ g, p.date = q.date) :
    groupNotification name g = none := by
  by_cases hlen : (sortByDate g).length < 2
  · exact groupNotification_eval_short name g hlen
  · have hsne : sortByDate g ≠ [] := by
      intro hn
      rw [hn] at hlen
      exact hlen (by simp)
    obtain ⟨L, hL⟩ := Option.isSome_iff_exists.mp (List.getLast?_isSome.mpr hsne)
    have hperm := sortByDate_perm g
    have hLg : L ∈ g := hperm.mem_iff.mp (List.mem_of_getLast?_eq_some hL)
    apply groupNotification_eval_zero name g L hlen hL
    apply firstEarlierDate_not_lt
    intro p hp
    have hpg : p ∈ g := hperm.mem_iff.mp (List.mem_reverse.mp hp)
    rw [h p hpg L hLg]
    exact lt_irrefl L.date

/-- C7, witness: two same-day samples of one product produce nothing. -/
theorem c7_single_date_witness :
    groupNotification "Widget"
      [⟨"Widget", 10, 3, "s", none⟩, ⟨"Widget", 8, 3, "s", none⟩] = none :=
  c7_single_date_no_notification "Widget" _ (by decide)

/-- C8: whenever no product group yields a notification, DoWork sets the
workload payload to the exact literal "No price drops detected.". -/
theorem c8_no_drops_literal (w : Workload) (c : Option GenAIOracle)
    (products : List GoProduct) (names : List String)
    (h : names.filterMap
      (fun n => groupNotification n (products.filter (fun p => p.name = n))) = []) :
    shoppingNotificationDoWork (some w) c (.ok products) names =
      .ok { w with payload := "No price drops detected." } := by
  simp only [shoppingNotificationDoWork]
  rw [h]
  rfl

/-- C8, witness: an empty product table yields the literal payload. -/
theorem c8_no_drops_witness :
    shoppingNotificationDoWork (some w0) none (.ok []) [] =
      .ok { w0 with payload := "No price drops detected." } :=
  c8_no_drops_literal w0 none [] [] rfl

/-- C9: worker.Init returns nil for every model list, every datastore and
every outcome of client construction; a gemini construction failure and
an unrecognized apiSpec are logged and skipped (the model stays
registered in modelInfo, no client is added) without surfacing any error
to the caller. -/
theorem c9_init_always_returns_nil :
    (∀ (geminiNew : String → Except String Unit) (models : List GoModel),
      (workerInitE geminiNew models).isOk = true) ∧
    workerInitE (fun _ => .error "construction failed") [mGem] =
      .ok ⟨[], [("m1", mGem)]⟩ ∧
    workerInitE gOK [⟨"m2", "p", "k", "x", "", "bogus"⟩] =
      .ok ⟨[], [("m2", ⟨"m2", "p", "k", "x", "", "bogus"⟩)]⟩ :=
  ⟨fun _ _ => rfl, rfl, rfl⟩

/-- C10: the AddSession/GetSession round trip joins the Models list with
commas and splits the stored column on commas, so a non-empty Models
list of comma-free ids is preserved exactly, while an empty Models list
comes back as the one-element list containing the empty string. -/
theorem c10_models_roundtrip (db : SessionDb) (w : Workload) (now : Int) :
    (w.models ≠ [] → (∀ s ∈ w.models, ',' ∉ s.data) →
      ∃ w', GetSession (AddSession db w now) w.id = .ok w' ∧ w'.models = w.models) ∧
    (w.models = [] →
      ∃ w', GetSession (AddSession db w now) w.id = .ok w' ∧ w'.models = [""]) := by
  constructor
  · intro hne hnc
    refine ⟨_, getSession_AddSession db w now, ?_⟩
    exact stringsSplit_stringsJoin ',' w.models hne hnc
  · intro hm
    refine ⟨_, getSession_AddSession db w now, ?_⟩
    rw [hm]
    rfl

/-- C10, witness: concrete round trips for a two-model list and for an
empty Models list. -/
theorem c10_models_roundtrip_witness :
    (∃ w', GetSession (AddSession [] wm 3) wm.id = .ok w' ∧ w'.models = wm.models) ∧
    (∃ w', GetSession (AddSession [] we 3) we.id = .ok w' ∧ w'.models = [""]) :=
  ⟨(c10_models_roundtrip [] wm 3).1 (by decide) (by decide),
   (c10_models_roundtrip [] we 3).2 rfl⟩
